import Mathlib

/-!
Shallow embedding of the flow-field canvas simulation
(`static/flow_field.js`) together with proofs about the claims of its
specification.

Conventions of the embedding:
* JavaScript numbers are idealized as elements of a `LinearOrderedField`;
  structural claims are evaluated at `ℚ` (exact arithmetic) and the
  transcendental pattern formulas at `ℝ`.
* The host math library (`Math.sin`, `Math.cos`, `Math.sqrt`, `Math.PI`)
  is a structure parameter `MathOps`; `realOps` is its real instantiation.
* Fallible operations (a loop that never terminates, a `reduce` over an
  empty array whose result is dereferenced, a thrown error) are modelled
  with `Option`: `none` is the computation that does not produce a value.
-/

namespace FlowFieldCanvas

/-- Enumeration of field patterns, in the source order of
`E_FIELD_PATTERNS` (flow_field.js line 30). -/
inductive E_FIELD_PATTERNS : Type
  | SINUSOIDAL
  | INVERSE_SINUSOIDAL
  | ANTI_CLOCKWISE
  | CLOCKWISE
deriving DecidableEq, BEq, Repr, Fintype

/-- The host math library primitives used by the script:
`Math.sin`, `Math.cos`, `Math.sqrt` and the constant `Math.PI`. -/
structure MathOps (α : Type) where
  sin : α → α
  cos : α → α
  sqrt : α → α
  pi : α

/-- The real-number instantiation of the host math library. -/
noncomputable def realOps : MathOps ℝ :=
  MathOps.mk Real.sin Real.cos Real.sqrt Real.pi

/-- Dummy operations over `ℚ`, used to evaluate the structural parts of
the generator (grid coordinates, lengths), which do not depend on the
values returned by the math library. -/
def qOps : MathOps ℚ :=
  MathOps.mk (fun _ => 0) (fun _ => 0) (fun _ => 0) 0

section Constants

variable (α : Type) [LinearOrderedField α]

/-- Golden ratio constant: `const PHI = 1.61803398875` (flow_field.js
line 14).  The decimal literal of the source, written as a fraction. -/
def PHI : α := 161803398875 / 100000000000

/-- Source constant `PHI_INV = 1 / PHI` (flow_field.js line 15). -/
def PHI_INV : α := 1 / PHI α

/-- Source constant `FPS_MULTIPLIER = 0.001` (flow_field.js line 19). -/
def FPS_MULTIPLIER : α := 1 / 1000

/-- Source constant `FPS_RESISTANCE = (60 * FPS_MULTIPLIER) / 3.65`
(flow_field.js line 22). -/
def FPS_RESISTANCE : α := (60 * FPS_MULTIPLIER α) / (365 / 100)

end Constants

/-- Source constant `PI_INV = 1 / Math.PI` (flow_field.js line 16),
relative to the host math library. -/
def PI_INV {α : Type} [LinearOrderedField α] (ops : MathOps α) : α :=
  1 / ops.pi

section Utils

variable {α : Type} [LinearOrderedField α]

/-- `Utils.lerp` (flow_field.js lines 119-129): the `switch` returns `a`
at `t = 0`, `b` at `t = 1`, and `(1 - t) * a + t * b` otherwise. -/
def lerp (a b t : α) : α :=
  if t = 0 then a else if t = 1 then b else (1 - t) * a + t * b

/-- `Utils.inv_lerp` (flow_field.js lines 101-107): throws an error when
`b === a` (modelled as `none`), otherwise returns `(value - a) / (b - a)`. -/
def inv_lerp (a b value : α) : Option α :=
  if b = a then none else some ((value - a) / (b - a))

/-- `Utils.manhattan_distance` (flow_field.js lines 132-134). -/
def manhattan_distance (x1 y1 x2 y2 : α) : α :=
  |x2 - x1| + |y2 - y1|

/-- `Utils.clamp` (flow_field.js lines 74-76). -/
def clamp (value min' max' : α) : α :=
  min (max value min') max'

/-- Body of the ascending loop of `Utils.range_tolist`
(`for (let i = start; i <= end; i += step) lst.push(i)`), with an
explicit iteration budget.  The wrapper `range_tolist` always supplies
a budget at least as large as the number of iterations of the loop, so
the budget never cuts the loop short. -/
def range_up_aux (e step : α) : ℕ → α → List α
  | 0, _ => []
  | fuel + 1, i => if i ≤ e then i :: range_up_aux e step fuel (i + step) else []

/-- Body of the descending loop of `Utils.range_tolist`
(`for (let i = start; i >= end; i += step) lst.push(i)`), with an
explicit iteration budget; see `range_up_aux`. -/
def range_down_aux (e step : α) : ℕ → α → List α
  | 0, _ => []
  | fuel + 1, i => if e ≤ i then i :: range_down_aux e step fuel (i + step) else []

/-- `Utils.range_tolist` (flow_field.js lines 146-152).  For `step > 0`
the ascending loop runs `⌊(end - start) / step⌋ + 1` times when
`start ≤ end` (`0` times otherwise); for `step < 0` the descending loop
runs `⌊(start - end) / (-step)⌋ + 1` times when `start ≥ end`.  Both are
bounded by the supplied budget since `⌈x⌉ ≥ ⌊x⌋`.  For `step = 0` the
descending loop is entered: it exits immediately when `start < end` and
otherwise never terminates (`none`). -/
def range_tolist [FloorRing α] (start e step : α) : Option (List α) :=
  if 0 < step then some (range_up_aux e step ((⌈(e - start) / step⌉).toNat + 1) start)
  else if step < 0 then
    some (range_down_aux e step ((⌈(start - e) / (-step)⌉).toNat + 1) start)
  else if start < e then some []
  else none

end Utils

/-- `Particle` (flow_field.js lines 239-247). -/
structure Particle (α : Type) where
  x : α
  y : α
  speed : α
  size : α
deriving DecidableEq, Repr

/-- `FlowVector` (flow_field.js lines 250-256). -/
structure FlowVector (α : Type) where
  u : α
  v : α
deriving DecidableEq, Repr

/-- `FieldVector` (flow_field.js lines 259-267). -/
structure FieldVector (α : Type) where
  x : α
  y : α
  u : α
  v : α
deriving DecidableEq, Repr

section Generator

variable {α : Type} [LinearOrderedField α]

/-- `FlowFieldFn._map_flow_vectors` (flow_field.js lines 471-496): maps
the coordinate grids element-wise to the u-grid and the v-grid of the
selected pattern.  The inductive `E_FIELD_PATTERNS` has exactly the four
recognized patterns, so the `default` throw of the source is
unreachable here. -/
def map_flow_vectors (ops : MathOps α) (pattern : E_FIELD_PATTERNS)
    (xgrid ygrid : List (List α)) : List (List α) × List (List α) :=
  match pattern with
  | .SINUSOIDAL =>
      (ygrid.map (fun row => row.map ops.sin),
       xgrid.map (fun row => row.map ops.cos))
  | .INVERSE_SINUSOIDAL =>
      (xgrid.map (fun row => row.map ops.cos),
       ygrid.map (fun row => row.map ops.sin))
  | .CLOCKWISE =>
      (ygrid.map (fun row => row.map (fun val => -(ops.sqrt (val * PHI_INV α * PI_INV ops)))),
       xgrid.map (fun row => row.map (fun val => ops.sqrt (val * PHI_INV α * PI_INV ops))))
  | .ANTI_CLOCKWISE =>
      (ygrid.map (fun row => row.map (fun val => ops.sqrt (val * PHI_INV α * PI_INV ops))),
       xgrid.map (fun row => row.map (fun val => ops.sqrt (val * PHI_INV α * PI_INV ops))))

/-- The x-grid of `gen_field` (flow_field.js lines 446-454): every row
repeats the first `nsteps` sample values `xvals[j]` across the columns. -/
def xgrid_of (nsteps : ℕ) (xvals : List α) : List (List α) :=
  (List.range nsteps).map
    (fun _i => (List.range nsteps).map (fun j => xvals.getD j 0))

/-- The y-grid of `gen_field` (flow_field.js lines 446-454): row `i`
repeats `yvals[i]` across the `nsteps` columns. -/
def ygrid_of (nsteps : ℕ) (yvals : List α) : List (List α) :=
  (List.range nsteps).map
    (fun i => (List.range nsteps).map (fun _j => yvals.getD i 0))

/-- Pure part of `FlowFieldFn.gen_field` after the two `range_tolist`
calls (flow_field.js lines 444-468): build the `nsteps × nsteps`
coordinate grids (`xrow.push(xvals[j]); yrow.push(yvals[i])`), map them
through the pattern, and flatten row-major
(`xgrid.flatMap((xrow, i) => xrow.map((x, j) => ...))`).  List indexing
stands in for JavaScript array indexing; the default value is never
reached because every index used is below the produced lengths. -/
def gen_field_core (ops : MathOps α) (pattern : E_FIELD_PATTERNS)
    (nsteps : ℕ) (xvals yvals : List α) : List (FieldVector α) :=
  let xgrid := xgrid_of nsteps xvals
  let ygrid := ygrid_of nsteps yvals
  let grids := map_flow_vectors ops pattern xgrid ygrid
  let ugrid := grids.1
  let vgrid := grids.2
  xgrid.enum.flatMap (fun ixrow =>
    ixrow.2.enum.map (fun jx =>
      FieldVector.mk jx.2 ((ygrid.getD ixrow.1 []).getD jx.1 0)
        ((ugrid.getD ixrow.1 []).getD jx.1 0)
        ((vgrid.getD ixrow.1 []).getD jx.1 0)))

/-- `FlowFieldFn.gen_field` (flow_field.js lines 432-469).
`step = nrows / nsteps`, `xvals = range_tolist(0, nrows, step)`,
`yvals = range_tolist(0, ncols, step)`, then the grid construction and
flattening of `gen_field_core`.  The result is `none` exactly when one
of the `range_tolist` loops does not terminate (which happens exactly
when `rows = 0`, making `step = 0`). -/
def gen_field [FloorRing α] (ops : MathOps α) (pattern : E_FIELD_PATTERNS)
    (cols rows : α) (nsteps : ℕ) : Option (List (FieldVector α)) :=
  let step := rows / (nsteps : α)
  (range_tolist 0 rows step).bind (fun xvals =>
    (range_tolist 0 cols step).map (fun yvals =>
      gen_field_core ops pattern nsteps xvals yvals))

end Generator

section LookupAdvect

variable {α : Type} [LinearOrderedField α]

/-- Distance computed inside the `reduce` of
`ParticleFn._get_flow_vector_at_position` (flow_field.js lines 407-411):
Manhattan distance when the flag is set, otherwise
`Math.hypot(point.x - x, point.y - y) = sqrt((point.x-x)² + (point.y-y)²)`. -/
def lookup_dist (ops : MathOps α) (with_manhattan : Bool)
    (x y : α) (point : FieldVector α) : α :=
  if with_manhattan then manhattan_distance x y point.x point.y
  else ops.sqrt ((point.x - x) ^ 2 + (point.y - y) ^ 2)

/-- One step of the `reduce` of flow_field.js lines 407-412: the
accumulator `none` is the initial `{point: null, distance: Infinity}`
(any computed distance is below `Infinity`, so the first point always
replaces it); `dist < closest.distance` keeps the first encountered
minimum. -/
def closest_step (ops : MathOps α) (with_manhattan : Bool) (x y : α)
    (acc : Option (FieldVector α × α)) (point : FieldVector α) :
    Option (FieldVector α × α) :=
  let d := lookup_dist ops with_manhattan x y point
  match acc with
  | none => some (point, d)
  | some cp => if d < cp.2 then some (point, d) else some cp

/-- `ParticleFn._get_flow_vector_at_position` (flow_field.js lines
393-418) with the dead `with_lru_cache = false` branch omitted: the
linear scan over all points keeping the first minimum, returning the
flow vector of the closest point.  `none` models the `TypeError` thrown
when `data` is empty (`closest.point` stays `null`). -/
def get_flow_vector_at_position (ops : MathOps α) (x y : α)
    (data : List (FieldVector α)) (with_manhattan_distance : Bool) :
    Option (FlowVector α) :=
  (data.foldl (closest_step ops with_manhattan_distance x y) none).map
    (fun cp => FlowVector.mk cp.1.u cp.1.v)

/-- One axis of the boundary wrap of
`ParticleFn.update_particle_via_field` (flow_field.js lines 380-383):
`if (c < 0) c += extent; else if (c > extent) c -= extent;`. -/
def wrap_axis (extent c : α) : α :=
  if c < 0 then c + extent else if c > extent then c - extent else c

/-- `ParticleFn.update_particle_via_field` (flow_field.js lines
360-384).  `g_scale`, `g_canvas_width` and `g_canvas_height` are passed
explicitly; the call site uses `with_manhattan_distance = !true`, so the
lookup runs with the Euclidean metric.  `none` models the crash of the
lookup on an empty field. -/
def update_particle_via_field (ops : MathOps α) (mut_particle : Particle α)
    (data : List (FieldVector α)) (g_scale g_canvas_width g_canvas_height : α)
    (is_lerped : Bool) (t_interpolate : α) : Option (Particle α) :=
  let p_x := mut_particle.x / g_scale
  let p_y := mut_particle.y / g_scale
  (get_flow_vector_at_position ops p_x p_y data false).map (fun flow_vector =>
    let resistance := g_scale * FPS_RESISTANCE α
    let nforceu := flow_vector.u * resistance
    let nforcev := flow_vector.v * resistance
    let x1 := if is_lerped then mut_particle.x + lerp p_x nforceu t_interpolate
              else mut_particle.x + nforceu
    let y1 := if is_lerped then mut_particle.y + lerp p_y nforcev t_interpolate
              else mut_particle.y + nforcev
    Particle.mk (wrap_axis g_canvas_width x1) (wrap_axis g_canvas_height y1)
      mut_particle.speed mut_particle.size)

end LookupAdvect

section ShuffleScheduler

/-- The key list of `Object.keys(E_FIELD_PATTERNS)` in source order
(flow_field.js lines 30-35 and 553). -/
def pattern_keys : List E_FIELD_PATTERNS :=
  [.SINUSOIDAL, .INVERSE_SINUSOIDAL, .ANTI_CLOCKWISE, .CLOCKWISE]

/-- The rejection-sampling loop of
`EventHandlerFn.handle_shuffle_field_pattern` (flow_field.js line 560):
`while (rand_num === cur_pattern_index) rand_num = ~~(Math.random() * nkeys)`.
The draws consumed by `Math.random` are an explicit input stream;
`none` models the loop still running when the stream is exhausted. -/
def shuffle_pick_index (cur_pattern_index : ℕ) : List ℕ → Option ℕ
  | [] => none
  | d :: ds =>
      if d = cur_pattern_index then shuffle_pick_index cur_pattern_index ds
      else some d

/-- Pattern-selection part of
`EventHandlerFn.handle_shuffle_field_pattern` (flow_field.js lines
552-563): find the index of the current pattern, draw until the drawn
index differs, and select `keys[rand_num]`.  The outer `none` covers an
exhausted draw stream; an out-of-range draw yields `none` from `get?`
(in the source, draws are `~~(Math.random() * nkeys) < nkeys` always). -/
def handle_shuffle_field_pattern (g_cur_field_pattern : E_FIELD_PATTERNS)
    (draws : List ℕ) : Option E_FIELD_PATTERNS :=
  let cur_pattern_index := pattern_keys.findIdx (fun val => val == g_cur_field_pattern)
  (shuffle_pick_index cur_pattern_index draws).bind (fun rand_num =>
    pattern_keys.get? rand_num)

/-- Scheduler state: the tick counter `g_frame_tick` and whether the
animation has been stopped (`CanvasFn.stop_animation` reached). -/
structure SchedulerState where
  tick : ℕ
  stopped : Bool
deriving DecidableEq, Repr

/-- Initial scheduler state: `g_frame_tick = 1` (flow_field.js line
751), animation running. -/
def scheduler_init : SchedulerState := SchedulerState.mk 1 false

/-- One scheduled frame of `draw` inside `animate` (flow_field.js lines
782-822): a stopped scheduler issues no frame; otherwise the tick is
incremented before the frame's work, and when the new tick exceeds
`g_frame_tick_limit` the animation stops instead of requesting the next
frame. -/
def scheduler_frame (g_frame_tick_limit : ℕ) (s : SchedulerState) : SchedulerState :=
  if s.stopped then s
  else
    let t := s.tick + 1
    if g_frame_tick_limit < t then SchedulerState.mk t true
    else SchedulerState.mk t false

end ShuffleScheduler

/-! Helper lemmas about the embedded definitions. -/

section ListHelpers

/-- Enumerating a mapped range pairs each index with its image. -/
lemma enum_range_map {β : Type} (n : ℕ) (f : ℕ → β) :
    ((List.range n).map f).enum = (List.range n).map (fun i => (i, f i)) := by
  have henum : (List.range n).enum = (List.range n).map (fun i => (i, i)) := by
    apply List.ext_get?
    intro k
    by_cases hk : k < n
    · simp [List.get?_enum, List.get?_map, List.getElem?_range, hk]
    · have h1 : (List.range n)[k]? = none := by
        apply List.getElem?_eq_none
        simpa using Nat.le_of_not_lt hk
      simp [List.get?_enum, List.get?_map, h1]
  rw [List.enum_map, henum, List.map_map]
  rfl

/-- Reading a mapped range at an in-bounds index. -/
lemma getD_map_range {β : Type} {n i : ℕ} (hi : i < n) (f : ℕ → β) (d : β) :
    (((List.range n).map f).getD i d) = f i := by
  rw [List.getD_eq_get?, List.get?_map, List.get?_range hi]
  rfl

end ListHelpers

section RangeLemmas

variable {α : Type} [LinearOrderedField α]

/-- With a positive step and enough budget, the ascending loop started
at `i` with end value `i + N * step` collects exactly the `N + 1`
values `i, i + step, ..., i + N * step`. -/
lemma range_up_aux_exact {step : α} (hstep : 0 < step) :
    ∀ (N : ℕ) (i : α) (fuel : ℕ), N < fuel →
      range_up_aux (i + (N : α) * step) step fuel i =
        (List.range (N + 1)).map (fun k : ℕ => i + (k : α) * step) := by
  intro N
  induction N with
  | zero =>
      intro i fuel hf
      obtain ⟨f, rfl⟩ : ∃ f, fuel = f + 1 := ⟨fuel - 1, by omega⟩
      have h2 : ¬ (i + step ≤ i) := by nlinarith
      cases f with
      | zero => simp [range_up_aux, List.range_succ]
      | succ f' => simp [range_up_aux, List.range_succ, h2]
  | succ N ih =>
      intro i fuel hf
      obtain ⟨f, rfl⟩ : ∃ f, fuel = f + 1 := ⟨fuel - 1, by omega⟩
      have hguard : i ≤ i + ((N + 1 : ℕ) : α) * step := by push_cast; nlinarith
      have harg : i + ((N + 1 : ℕ) : α) * step = (i + step) + (N : α) * step := by
        push_cast; ring
      simp only [range_up_aux, if_pos hguard]
      rw [harg, ih (i + step) f (by omega)]
      rw [List.range_succ_eq_map (N + 1), List.map_cons, List.map_map]
      refine List.cons_eq_cons.2 ⟨by push_cast; ring, ?_⟩
      apply List.map_congr_left
      intro k _hk
      simp only [Function.comp_apply, Nat.succ_eq_add_one]
      push_cast
      ring

/-- With a negative step and enough budget, the descending loop started
at `i` with end value `i + N * step` collects exactly the `N + 1`
values `i, i + step, ..., i + N * step`. -/
lemma range_down_aux_exact {step : α} (hstep : step < 0) :
    ∀ (N : ℕ) (i : α) (fuel : ℕ), N < fuel →
      range_down_aux (i + (N : α) * step) step fuel i =
        (List.range (N + 1)).map (fun k : ℕ => i + (k : α) * step) := by
  intro N
  induction N with
  | zero =>
      intro i fuel hf
      obtain ⟨f, rfl⟩ : ∃ f, fuel = f + 1 := ⟨fuel - 1, by omega⟩
      have h2 : ¬ (i ≤ i + step) := by nlinarith
      cases f with
      | zero => simp [range_down_aux, List.range_succ]
      | succ f' => simp [range_down_aux, List.range_succ, h2]
  | succ N ih =>
      intro i fuel hf
      obtain ⟨f, rfl⟩ : ∃ f, fuel = f + 1 := ⟨fuel - 1, by omega⟩
      have hguard : i + ((N + 1 : ℕ) : α) * step ≤ i := by push_cast; nlinarith
      have harg : i + ((N + 1 : ℕ) : α) * step = (i + step) + (N : α) * step := by
        push_cast; ring
      simp only [range_down_aux, if_pos hguard]
      rw [harg, ih (i + step) f (by omega)]
      rw [List.range_succ_eq_map (N + 1), List.map_cons, List.map_map]
      refine List.cons_eq_cons.2 ⟨by push_cast; ring, ?_⟩
      apply List.map_congr_left
      intro k _hk
      simp only [Function.comp_apply, Nat.succ_eq_add_one]
      push_cast
      ring

/-- The inclusive sample list of the generator: for `rows ≠ 0` and at
least one step, `range_tolist(0, rows, rows / nsteps)` terminates and
returns the `nsteps + 1` multiples of the step, `0, step, ..., rows`. -/
lemma range_tolist_rows [FloorRing α] {rows : α} (hrows : rows ≠ 0)
    {nsteps : ℕ} (hsteps : 1 ≤ nsteps) :
    range_tolist 0 rows (rows / (nsteps : α)) =
      some ((List.range (nsteps + 1)).map (fun k : ℕ => (k : α) * (rows / (nsteps : α)))) := by
  have hn : ((nsteps : α)) ≠ 0 := Nat.cast_ne_zero.mpr (by omega)
  have hmul : (0 : α) + (nsteps : α) * (rows / (nsteps : α)) = rows := by
    field_simp
  have hdivne : rows / (nsteps : α) ≠ 0 := by
    intro h
    rcases div_eq_zero_iff.mp h with h' | h'
    · exact hrows h'
    · exact hn h'
  have hdivquot : (rows - 0) / (rows / (nsteps : α)) = (nsteps : α) := by
    rw [sub_zero, div_div_eq_mul_div, mul_comm, mul_div_assoc, div_self hrows, mul_one]
  rcases lt_trichotomy (rows / (nsteps : α)) 0 with hneg | hzero | hpos
  · rw [range_tolist, if_neg (by linarith), if_pos hneg]
    have hc : (0 : α) - rows = -(rows - 0) := by ring
    have hceil : ((⌈((0 : α) - rows) / (-(rows / (nsteps : α)))⌉).toNat + 1) = nsteps + 1 := by
      rw [hc, neg_div_neg_eq, hdivquot, Int.ceil_natCast, Int.toNat_natCast]
    rw [hceil]
    have hx := range_down_aux_exact hneg nsteps (0 : α) (nsteps + 1) (by omega)
    rw [hmul] at hx
    rw [hx]
    refine congrArg some (List.map_congr_left ?_)
    intro k _
    ring
  · exact absurd hzero hdivne
  · rw [range_tolist, if_pos hpos]
    have hceil : ((⌈(rows - 0) / (rows / (nsteps : α))⌉).toNat + 1) = nsteps + 1 := by
      rw [hdivquot, Int.ceil_natCast, Int.toNat_natCast]
    rw [hceil]
    have hx := range_up_aux_exact hpos nsteps (0 : α) (nsteps + 1) (by omega)
    rw [hmul] at hx
    rw [hx]
    refine congrArg some (List.map_congr_left ?_)
    intro k _
    ring

end RangeLemmas

section CoreCharacterization

variable {α : Type} [LinearOrderedField α]

/-- Pointwise view of the u-grid produced by `map_flow_vectors`: the
entry at a grid cell with coordinates `(x, y)`. -/
def uFun (ops : MathOps α) (pattern : E_FIELD_PATTERNS) (x y : α) : α :=
  match pattern with
  | .SINUSOIDAL => ops.sin y
  | .INVERSE_SINUSOIDAL => ops.cos x
  | .CLOCKWISE => -(ops.sqrt (y * PHI_INV α * PI_INV ops))
  | .ANTI_CLOCKWISE => ops.sqrt (y * PHI_INV α * PI_INV ops)

/-- Pointwise view of the v-grid produced by `map_flow_vectors`. -/
def vFun (ops : MathOps α) (pattern : E_FIELD_PATTERNS) (x y : α) : α :=
  match pattern with
  | .SINUSOIDAL => ops.cos x
  | .INVERSE_SINUSOIDAL => ops.sin y
  | .CLOCKWISE => ops.sqrt (x * PHI_INV α * PI_INV ops)
  | .ANTI_CLOCKWISE => ops.sqrt (x * PHI_INV α * PI_INV ops)

/-- Congruence for `flatMap` under pointwise equality on members. -/
lemma flatMap_congr_mem {β γ : Type} {l : List β} {f g : β → List γ}
    (h : ∀ x ∈ l, f x = g x) : l.flatMap f = l.flatMap g := by
  induction l with
  | nil => rfl
  | cons a t ih =>
      simp only [List.flatMap_cons]
      rw [h a (List.mem_cons_self a t), ih (fun x hx => h x (List.mem_cons_of_mem a hx))]

/-- Reading a cell of the x-grid. -/
lemma xgrid_entry {n i j : ℕ} (hi : i < n) (hj : j < n) (xvals : List α) :
    (((xgrid_of n xvals).getD i []).getD j 0) = xvals.getD j 0 := by
  rw [xgrid_of, getD_map_range hi, getD_map_range hj]

/-- Reading a cell of the y-grid. -/
lemma ygrid_entry {n i j : ℕ} (hi : i < n) (hj : j < n) (yvals : List α) :
    (((ygrid_of n yvals).getD i []).getD j 0) = yvals.getD i 0 := by
  rw [ygrid_of, getD_map_range hi, getD_map_range hj]

/-- Reading a cell of the element-wise image of the x-grid. -/
lemma xgrid_map_entry (f : α → α) {n i j : ℕ} (hi : i < n) (hj : j < n)
    (xvals : List α) :
    ((((xgrid_of n xvals).map (List.map f)).getD i []).getD j 0) =
      f (xvals.getD j 0) := by
  rw [xgrid_of, List.map_map]
  rw [getD_map_range hi]
  simp only [Function.comp_apply, List.map_map]
  rw [getD_map_range hj]
  rfl

/-- Reading a cell of the element-wise image of the y-grid. -/
lemma ygrid_map_entry (f : α → α) {n i j : ℕ} (hi : i < n) (hj : j < n)
    (yvals : List α) :
    ((((ygrid_of n yvals).map (List.map f)).getD i []).getD j 0) =
      f (yvals.getD i 0) := by
  rw [ygrid_of, List.map_map]
  rw [getD_map_range hi]
  simp only [Function.comp_apply, List.map_map]
  rw [getD_map_range hj]
  rfl

/-- Shape of the flattening step of `gen_field_core`, for any u-grid and
v-grid whose cells are a pointwise function of the coordinates. -/
lemma core_flatten (n : ℕ) (xvals yvals : List α) (ug vg : List (List α))
    (fu fv : α → α → α)
    (hu : ∀ i j : ℕ, i < n → j < n →
      ((ug.getD i []).getD j 0) = fu (xvals.getD j 0) (yvals.getD i 0))
    (hv : ∀ i j : ℕ, i < n → j < n →
      ((vg.getD i []).getD j 0) = fv (xvals.getD j 0) (yvals.getD i 0)) :
    ((xgrid_of n xvals).enum.flatMap (fun ixrow =>
        ixrow.2.enum.map (fun jx =>
          FieldVector.mk jx.2 (((ygrid_of n yvals).getD ixrow.1 []).getD jx.1 0)
            ((ug.getD ixrow.1 []).getD jx.1 0)
            ((vg.getD ixrow.1 []).getD jx.1 0)))) =
      (List.range n).flatMap (fun i => (List.range n).map (fun j =>
        FieldVector.mk (xvals.getD j 0) (yvals.getD i 0)
          (fu (xvals.getD j 0) (yvals.getD i 0))
          (fv (xvals.getD j 0) (yvals.getD i 0)))) := by
  rw [xgrid_of, enum_range_map, List.flatMap_map]
  apply flatMap_congr_mem
  intro i hi
  rw [List.mem_range] at hi
  rw [enum_range_map, List.map_map]
  apply List.map_congr_left
  intro j hj
  rw [List.mem_range] at hj
  simp only [Function.comp_apply]
  rw [ygrid_entry hi hj, hu i j hi hj, hv i j hi hj]

/-- Master characterization of `gen_field_core`: the flat list is the
row-major cross product of the first `nsteps` sample values, each point
carrying the pattern value of its own coordinates. -/
lemma gen_field_core_eq (ops : MathOps α) (pattern : E_FIELD_PATTERNS)
    (n : ℕ) (xvals yvals : List α) :
    gen_field_core ops pattern n xvals yvals =
      (List.range n).flatMap (fun i => (List.range n).map (fun j =>
        FieldVector.mk (xvals.getD j 0) (yvals.getD i 0)
          (uFun ops pattern (xvals.getD j 0) (yvals.getD i 0))
          (vFun ops pattern (xvals.getD j 0) (yvals.getD i 0)))) := by
  cases pattern with
  | SINUSOIDAL =>
      refine (core_flatten n xvals yvals _ _ _ _ ?_ ?_).trans rfl
      · intro i j hi hj
        exact ygrid_map_entry ops.sin hi hj yvals
      · intro i j hi hj
        exact xgrid_map_entry ops.cos hi hj xvals
  | INVERSE_SINUSOIDAL =>
      refine (core_flatten n xvals yvals _ _ _ _ ?_ ?_).trans rfl
      · intro i j hi hj
        exact xgrid_map_entry ops.cos hi hj xvals
      · intro i j hi hj
        exact ygrid_map_entry ops.sin hi hj yvals
  | CLOCKWISE =>
      refine (core_flatten n xvals yvals _ _ _ _ ?_ ?_).trans rfl
      · intro i j hi hj
        exact ygrid_map_entry (fun val => -(ops.sqrt (val * PHI_INV α * PI_INV ops))) hi hj yvals
      · intro i j hi hj
        exact xgrid_map_entry (fun val => ops.sqrt (val * PHI_INV α * PI_INV ops)) hi hj xvals
  | ANTI_CLOCKWISE =>
      refine (core_flatten n xvals yvals _ _ _ _ ?_ ?_).trans rfl
      · intro i j hi hj
        exact ygrid_map_entry (fun val => ops.sqrt (val * PHI_INV α * PI_INV ops)) hi hj yvals
      · intro i j hi hj
        exact xgrid_map_entry (fun val => ops.sqrt (val * PHI_INV α * PI_INV ops)) hi hj xvals

end CoreCharacterization

section GenFieldFacts

variable {α : Type} [LinearOrderedField α]

/-- Indexing a `flatMap` whose inner lists all have length `m`. -/
lemma flatMap_fixed_get? {β γ : Type} (g : β → List γ) (m : ℕ)
    (hm : ∀ x, (g x).length = m) :
    ∀ (l : List β) (i j : ℕ), j < m →
      (l.flatMap g).get? (i * m + j) = (l.get? i).bind (fun x => (g x).get? j) := by
  intro l
  induction l with
  | nil => intro i j _; rfl
  | cons h t ih =>
      intro i j hj
      rw [List.flatMap_cons]
      cases i with
      | zero =>
          rw [List.get?_append (by rw [hm]; simpa using hj)]
          simp
      | succ i' =>
          rw [List.get?_append_right (by rw [hm]; nlinarith)]
          have harith : (i' + 1) * m + j - (g h).length = i' * m + j := by
            rw [hm]; ring_nf; omega
          rw [harith]
          exact ih i' j hj

/-- The generated flat list has exactly `nsteps * nsteps` points. -/
lemma gen_field_core_length (ops : MathOps α) (pattern : E_FIELD_PATTERNS)
    (n : ℕ) (xvals yvals : List α) :
    (gen_field_core ops pattern n xvals yvals).length = n * n := by
  rw [gen_field_core_eq, List.length_flatMap]
  simp [Function.comp_def, List.map_const', List.sum_replicate, smul_eq_mul]

/-- Row-major indexing of the generated flat list. -/
lemma gen_field_core_get? (ops : MathOps α) (pattern : E_FIELD_PATTERNS)
    {n i j : ℕ} (hi : i < n) (hj : j < n) (xvals yvals : List α) :
    (gen_field_core ops pattern n xvals yvals).get? (i * n + j) =
      some (FieldVector.mk (xvals.getD j 0) (yvals.getD i 0)
        (uFun ops pattern (xvals.getD j 0) (yvals.getD i 0))
        (vFun ops pattern (xvals.getD j 0) (yvals.getD i 0))) := by
  rw [gen_field_core_eq]
  rw [flatMap_fixed_get? _ n (fun x => by simp) (List.range n) i j hj]
  rw [List.get?_range hi]
  rw [Option.some_bind, List.get?_map, List.get?_range hj]
  rfl

/-- Membership characterization of the generated flat list. -/
lemma gen_field_core_mem (ops : MathOps α) (pattern : E_FIELD_PATTERNS)
    {n : ℕ} {xvals yvals : List α} {q : FieldVector α} :
    q ∈ gen_field_core ops pattern n xvals yvals ↔
      ∃ i, i < n ∧ ∃ j, j < n ∧
        q = FieldVector.mk (xvals.getD j 0) (yvals.getD i 0)
          (uFun ops pattern (xvals.getD j 0) (yvals.getD i 0))
          (vFun ops pattern (xvals.getD j 0) (yvals.getD i 0)) := by
  rw [gen_field_core_eq]
  simp only [List.mem_flatMap, List.mem_map, List.mem_range]
  constructor
  · rintro ⟨i, hi, ⟨j, hj, rfl⟩⟩
    exact ⟨i, hi, j, hj, rfl⟩
  · rintro ⟨i, hi, j, hj, rfl⟩
    exact ⟨i, hi, j, hj, rfl⟩

/-- Deconstruction of a successful `gen_field` run. -/
lemma gen_field_some [FloorRing α] {ops : MathOps α} {pattern : E_FIELD_PATTERNS}
    {cols rows : α} {nsteps : ℕ} {pts : List (FieldVector α)}
    (h : gen_field ops pattern cols rows nsteps = some pts) :
    ∃ xs ys, range_tolist 0 rows (rows / (nsteps : α)) = some xs ∧
      range_tolist 0 cols (rows / (nsteps : α)) = some ys ∧
      pts = gen_field_core ops pattern nsteps xs ys := by
  rw [gen_field] at h
  cases hx : range_tolist 0 rows (rows / (nsteps : α)) with
  | none => rw [hx] at h; exact absurd h (by simp)
  | some xs =>
      rw [hx] at h
      cases hy : range_tolist 0 cols (rows / (nsteps : α)) with
      | none => rw [hy] at h; exact absurd h (by simp)
      | some ys =>
          rw [hy] at h
          simp only [Option.some_bind, Option.map_some', Option.some_inj] at h
          exact ⟨xs, ys, rfl, rfl, h.symm⟩

/-- On every point of a generated field, the flow components are the
pattern formulas applied to the point's own coordinates. -/
lemma gen_field_uv [FloorRing α] {ops : MathOps α} {pattern : E_FIELD_PATTERNS}
    {cols rows : α} {nsteps : ℕ} {pts : List (FieldVector α)}
    (h : gen_field ops pattern cols rows nsteps = some pts) :
    ∀ q ∈ pts, q.u = uFun ops pattern q.x q.y ∧ q.v = vFun ops pattern q.x q.y := by
  obtain ⟨xs, ys, _, _, rfl⟩ := gen_field_some h
  intro q hq
  obtain ⟨i, hi, j, hj, rfl⟩ := (gen_field_core_mem _ _).mp hq
  exact ⟨rfl, rfl⟩

/-- A square generated field with at least one step: explicit success
with the sample list `0, step, ..., rows`. -/
lemma gen_field_eq_some [FloorRing α] (ops : MathOps α)
    (pattern : E_FIELD_PATTERNS) {rows : α} (hrows : rows ≠ 0)
    {nsteps : ℕ} (hsteps : 1 ≤ nsteps) :
    gen_field ops pattern rows rows nsteps =
      some (gen_field_core ops pattern nsteps
        ((List.range (nsteps + 1)).map (fun k : ℕ => (k : α) * (rows / (nsteps : α))))
        ((List.range (nsteps + 1)).map (fun k : ℕ => (k : α) * (rows / (nsteps : α))))) := by
  rw [gen_field]
  rw [range_tolist_rows hrows hsteps]
  rfl

end GenFieldFacts

section LookupFacts

variable {α : Type} [LinearOrderedField α]

/-- Invariant of the `reduce` scan: starting from a candidate whose
recorded distance is its own distance, the fold returns a point of the
list (or the candidate), whose recorded distance is its own distance,
is no larger than the starting distance, and is minimal among the
distances of all scanned points. -/
lemma closest_foldl_spec (ops : MathOps α) (b : Bool) (x y : α) :
    ∀ (l : List (FieldVector α)) (c : FieldVector α) (cd : α),
      cd = lookup_dist ops b x y c →
      ∃ cp : FieldVector α × α,
        l.foldl (closest_step ops b x y) (some (c, cd)) = some cp ∧
        cp.2 = lookup_dist ops b x y cp.1 ∧
        cp.2 ≤ cd ∧
        (cp.1 = c ∨ cp.1 ∈ l) ∧
        ∀ q ∈ l, cp.2 ≤ lookup_dist ops b x y q := by
  intro l
  induction l with
  | nil =>
      intro c cd hcd
      exact ⟨(c, cd), rfl, hcd, le_refl _, Or.inl rfl, by simp⟩
  | cons h t ih =>
      intro c cd hcd
      rw [List.foldl_cons]
      by_cases hlt : lookup_dist ops b x y h < cd
      · have hstep : closest_step ops b x y (some (c, cd)) h
            = some (h, lookup_dist ops b x y h) := by
          simp [closest_step, hlt]
        rw [hstep]
        obtain ⟨cp, h1, h2, h3, h4, h5⟩ := ih h (lookup_dist ops b x y h) rfl
        refine ⟨cp, h1, h2, le_trans h3 (le_of_lt hlt), ?_, ?_⟩
        · rcases h4 with h4 | h4
          · exact Or.inr (h4 ▸ List.mem_cons_self h t)
          · exact Or.inr (List.mem_cons_of_mem h h4)
        · intro q hq
          rcases List.mem_cons.mp hq with rfl | hq'
          · exact h3
          · exact h5 q hq'
      · have hstep : closest_step ops b x y (some (c, cd)) h = some (c, cd) := by
          simp [closest_step, hlt]
        rw [hstep]
        obtain ⟨cp, h1, h2, h3, h4, h5⟩ := ih c cd hcd
        refine ⟨cp, h1, h2, h3, ?_, ?_⟩
        · rcases h4 with h4 | h4
          · exact Or.inl h4
          · exact Or.inr (List.mem_cons_of_mem h h4)
        · intro q hq
          rcases List.mem_cons.mp hq with rfl | hq'
          · exact le_trans h3 (le_of_not_lt hlt)
          · exact h5 q hq'

/-- If some point of the list has distance `0` to the query, all
distances are nonnegative, and every point at distance `0` carries the
same flow components as `p`, then the scan returns `p`'s components. -/
lemma lookup_at_zero (ops : MathOps α) (b : Bool) (x y : α)
    (data : List (FieldVector α)) (p : FieldVector α)
    (hp : p ∈ data)
    (hself : lookup_dist ops b x y p = 0)
    (hnn : ∀ q ∈ data, 0 ≤ lookup_dist ops b x y q)
    (hzero : ∀ q ∈ data, lookup_dist ops b x y q = 0 → q.u = p.u ∧ q.v = p.v) :
    get_flow_vector_at_position ops x y data b = some (FlowVector.mk p.u p.v) := by
  cases data with
  | nil => exact absurd hp (List.not_mem_nil p)
  | cons h t =>
      rw [get_flow_vector_at_position, List.foldl_cons]
      have hfirst : closest_step ops b x y none h = some (h, lookup_dist ops b x y h) := rfl
      rw [hfirst]
      obtain ⟨cp, h1, h2, h3, h4, h5⟩ := closest_foldl_spec ops b x y t h _ rfl
      rw [h1]
      have hcpmem : cp.1 ∈ h :: t := by
        rcases h4 with h4 | h4
        · exact h4 ▸ List.mem_cons_self h t
        · exact List.mem_cons_of_mem h h4
      have hcple : ∀ q ∈ h :: t, cp.2 ≤ lookup_dist ops b x y q := by
        intro q hq
        rcases List.mem_cons.mp hq with rfl | hq'
        · exact h3
        · exact h5 q hq'
      have hle0 : cp.2 ≤ 0 := hself ▸ hcple p hp
      have hge0 : 0 ≤ cp.2 := h2 ▸ hnn cp.1 hcpmem
      have hd0 : lookup_dist ops b x y cp.1 = 0 := h2 ▸ le_antisymm hle0 hge0
      obtain ⟨hu, hv⟩ := hzero cp.1 hcpmem hd0
      simp [Option.map_some', hu, hv]

end LookupFacts

section SchedulerFacts

/-- While the tick counter has not exceeded the limit, the `k`-th
scheduled frame leaves the scheduler running at tick `k + 1`. -/
lemma scheduler_run_lt (N : ℕ) :
    ∀ k, k < N → (scheduler_frame N)^[k] scheduler_init = SchedulerState.mk (k + 1) false := by
  intro k
  induction k with
  | zero => intro _; rfl
  | succ k ih =>
      intro hk
      rw [Function.iterate_succ_apply', ih (by omega)]
      rw [scheduler_frame]
      simp only [Bool.false_eq_true, if_false]
      rw [if_neg (by omega)]

/-- From the `N`-th frame on, the scheduler is stopped at tick `N + 1`
and never changes again: no further frames are executed. -/
lemma scheduler_run_ge (N : ℕ) (hN : 1 ≤ N) :
    ∀ m, N ≤ m → (scheduler_frame N)^[m] scheduler_init = SchedulerState.mk (N + 1) true := by
  intro m hm
  induction m, hm using Nat.le_induction with
  | base =>
      obtain ⟨N', rfl⟩ : ∃ N', N = N' + 1 := ⟨N - 1, by omega⟩
      rw [Function.iterate_succ_apply', scheduler_run_lt (N' + 1) N' (by omega)]
      rw [scheduler_frame]
      simp only [Bool.false_eq_true, if_false]
      rw [if_pos (by omega)]
  | succ m hm ih =>
      rw [Function.iterate_succ_apply', ih]
      rfl

end SchedulerFacts

section ShuffleFacts

/-- The rejection-sampling loop never returns the current index. -/
lemma shuffle_pick_index_ne {c : ℕ} :
    ∀ {ds : List ℕ} {r : ℕ}, shuffle_pick_index c ds = some r → r ≠ c := by
  intro ds
  induction ds with
  | nil => intro r h; exact absurd h (by simp [shuffle_pick_index])
  | cons d ds ih =>
      intro r h
      by_cases hd : d = c
      · rw [shuffle_pick_index, if_pos hd] at h
        exact ih h
      · rw [shuffle_pick_index, if_neg hd] at h
        rw [Option.some_inj] at h
        exact h ▸ hd

end ShuffleFacts

/-! Claim theorems. -/

/-- Claim C2, counterexample: at equal interval bounds `a = b = 1` the
helper `inv_lerp` throws (produces no value, `none`), refuting the claim
that it does not raise an exception and instead propagates a
`NaN`/`Infinity` value. -/
theorem claim_C2_counterexample : inv_lerp (1 : ℚ) 1 5 = none := rfl

/-- Claim C2, amended: for all `a`, `b`, `value` with `a = b` (equal
interval bounds), `inv_lerp(a, b, value)` raises an exception (the
division by zero is guarded by an explicit `throw`), rather than
returning a propagated `NaN`/`Infinity` value. -/
theorem claim_C2 {α : Type} [LinearOrderedField α] (a b value : α) (h : a = b) :
    inv_lerp a b value = none := by
  rw [inv_lerp, if_pos h.symm]

/-- Claim C2, witness: the amended theorem evaluated at `a = b = 2`,
`value = 7`. -/
theorem claim_C2_witness : inv_lerp (2 : ℚ) 2 7 = none :=
  claim_C2 2 2 7 rfl

/-- Claim C6: with tick limit `N ≥ 1` and the tick starting at `1`
(incremented before each frame's work), the scheduler runs exactly `N`
frames: after the `k`-th frame (`k < N`) it is running at tick `k + 1`,
the tick observed by frame `k` is `k + 1` (so frames `1..N` observe
ticks `2..N+1`), and from the `N`-th frame on it is stopped at tick
`N + 1` and its state never changes again — no further scheduled frame
executes. -/
theorem claim_C6 (N : ℕ) (hN : 1 ≤ N) :
    (∀ k, k < N →
      (scheduler_frame N)^[k] scheduler_init = SchedulerState.mk (k + 1) false) ∧
    (∀ k, 1 ≤ k → k ≤ N →
      ((scheduler_frame N)^[k] scheduler_init).tick = k + 1) ∧
    (∀ m, N ≤ m →
      (scheduler_frame N)^[m] scheduler_init = SchedulerState.mk (N + 1) true) := by
  refine ⟨scheduler_run_lt N, ?_, scheduler_run_ge N hN⟩
  intro k hk1 hkN
  rcases lt_or_eq_of_le hkN with hlt | rfl
  · rw [scheduler_run_lt N k hlt]
  · rw [scheduler_run_ge k hN k (le_refl k)]

/-- Claim C6, witness: the theorem at `N = 3`: after 2 frames the
scheduler is running at tick 3; after 3 frames (and after any later
number of scheduled frames, here 5) it is stopped at tick 4. -/
theorem claim_C6_witness :
    (scheduler_frame 3)^[2] scheduler_init = SchedulerState.mk 3 false ∧
    (scheduler_frame 3)^[5] scheduler_init = SchedulerState.mk 4 true :=
  ⟨(claim_C6 3 (by decide)).1 2 (by decide),
   (claim_C6 3 (by decide)).2.2 5 (by decide)⟩

/-- Claim C8: whenever the pattern shuffle completes (the rejection
sampling loop terminates on some draw stream), the selected pattern
differs from the pattern that was active immediately before the call,
for every prior pattern and every sequence of random draws. -/
theorem claim_C8 (cur : E_FIELD_PATTERNS) (draws : List ℕ) (p : E_FIELD_PATTERNS)
    (h : handle_shuffle_field_pattern cur draws = some p) : p ≠ cur := by
  rw [handle_shuffle_field_pattern] at h
  cases hpick : shuffle_pick_index (pattern_keys.findIdx (fun val => val == cur)) draws with
  | none => rw [hpick] at h; exact absurd h (by simp)
  | some r =>
      rw [hpick, Option.some_bind] at h
      have hne := shuffle_pick_index_ne hpick
      have hr4 : r < 4 := by
        have := List.get?_eq_some.mp h
        simpa [pattern_keys] using this.1
      have hmaster : ∀ (r' : Fin 4) (cur' p' : E_FIELD_PATTERNS),
          pattern_keys.get? (r' : ℕ) = some p' →
          (r' : ℕ) ≠ pattern_keys.findIdx (fun val => val == cur') →
          p' ≠ cur' := by decide
      exact hmaster ⟨r, hr4⟩ cur p h hne

/-- Claim C8, witness: starting from `SINUSOIDAL` with draws `[0, 3]`
(the first draw hits the current index and is rejected), the shuffle
returns `CLOCKWISE`, which differs from the prior pattern. -/
theorem claim_C8_witness :
    handle_shuffle_field_pattern E_FIELD_PATTERNS.SINUSOIDAL [0, 3] =
      some E_FIELD_PATTERNS.CLOCKWISE ∧
    E_FIELD_PATTERNS.CLOCKWISE ≠ E_FIELD_PATTERNS.SINUSOIDAL :=
  ⟨by decide, claim_C8 _ [0, 3] _ (by decide)⟩

/-- Claim C9: for a canvas extent (nonnegative, as canvas dimensions
are), the post-advection wrap treats one axis at a time and applies at
most one correction: a negative coordinate has the extent added, a
coordinate exceeding the extent has it subtracted, and a coordinate
already inside `[0, extent]` is untouched; in particular a particle at
`extent + 1` is remapped to `1`. -/
theorem claim_C9 {α : Type} [LinearOrderedField α] (extent c : α) (hext : 0 ≤ extent) :
    ((c < 0 → wrap_axis extent c = c + extent) ∧
     (extent < c → wrap_axis extent c = c - extent) ∧
     (0 ≤ c → c ≤ extent → wrap_axis extent c = c)) ∧
    wrap_axis extent (extent + 1) = 1 := by
  constructor
  · refine ⟨?_, ?_, ?_⟩
    · intro h
      rw [wrap_axis, if_pos h]
    · intro h
      rw [wrap_axis, if_neg (by linarith), if_pos h]
    · intro h1 h2
      rw [wrap_axis, if_neg (by linarith), if_neg (by linarith)]
  · rw [wrap_axis, if_neg (by linarith), if_pos (by linarith)]
    ring

/-- Claim C9, witness: the theorem at extent `10`: the coordinate `-3`
is wrapped to `-3 + 10`, and the coordinate `11 = 10 + 1` is wrapped to
`1`. -/
theorem claim_C9_witness :
    wrap_axis (10 : ℚ) (-3) = -3 + 10 ∧ wrap_axis (10 : ℚ) (10 + 1) = 1 :=
  ⟨(claim_C9 10 (-3) (by norm_num)).1.1 (by norm_num),
   (claim_C9 10 (-3) (by norm_num)).2⟩


/-- Claim C1, counterexample: with scale `1`, particle at `(2, 2)`, a
field point at the query position with flow `(1, 0)` and interpolation
factor `t = 1`, the advance operation yields `x = 2 + 6/365`, not the
force term `6/365 = 1 * (1 * FPS_RESISTANCE)` that the claim predicts
for `t = 1`; the boundary wrap is the identity here, so the position
before the wrap is the same value.  This refutes the claim that the
position becomes exactly the force term at `t = 1`. -/
theorem claim_C1_counterexample :
    update_particle_via_field qOps (Particle.mk 2 2 1 2)
        [FieldVector.mk 2 2 1 0] 1 100 100 true 1 =
      some (Particle.mk (736 / 365) 2 1 2) ∧
    (736 / 365 : ℚ) ≠ 1 * (1 * FPS_RESISTANCE ℚ) ∧
    wrap_axis (100 : ℚ) (736 / 365) = 736 / 365 := by
  refine ⟨?_, ?_, ?_⟩
  · norm_num [update_particle_via_field, get_flow_vector_at_position, closest_step,
      lookup_dist, qOps, lerp, wrap_axis, FPS_RESISTANCE, FPS_MULTIPLIER]
  · norm_num [FPS_RESISTANCE, FPS_MULTIPLIER]
  · norm_num [wrap_axis]

/-- Claim C1, amended: the advance operation adds to each position axis
the linear interpolation between the field-space position and the force
term (flow component times `resistance = scale * FPS_RESISTANCE`), then
wraps: at `t = 0` the axis increases by the field-space position
(`p / scale`), and at `t = 1` it increases by exactly the force term
(both before the boundary wrap, which is applied to the sum). -/
theorem claim_C1 {α : Type} [LinearOrderedField α] (ops : MathOps α)
    (p : Particle α) (data : List (FieldVector α)) (g_scale W H t : α)
    (fv : FlowVector α)
    (hfv : get_flow_vector_at_position ops (p.x / g_scale) (p.y / g_scale)
      data false = some fv) :
    update_particle_via_field ops p data g_scale W H true t =
      some (Particle.mk
        (wrap_axis W (p.x + lerp (p.x / g_scale) (fv.u * (g_scale * FPS_RESISTANCE α)) t))
        (wrap_axis H (p.y + lerp (p.y / g_scale) (fv.v * (g_scale * FPS_RESISTANCE α)) t))
        p.speed p.size) ∧
    (t = 0 → update_particle_via_field ops p data g_scale W H true t =
      some (Particle.mk (wrap_axis W (p.x + p.x / g_scale))
        (wrap_axis H (p.y + p.y / g_scale)) p.speed p.size)) ∧
    (t = 1 → update_particle_via_field ops p data g_scale W H true t =
      some (Particle.mk (wrap_axis W (p.x + fv.u * (g_scale * FPS_RESISTANCE α)))
        (wrap_axis H (p.y + fv.v * (g_scale * FPS_RESISTANCE α))) p.speed p.size)) := by
  have hgen : update_particle_via_field ops p data g_scale W H true t =
      some (Particle.mk
        (wrap_axis W (p.x + lerp (p.x / g_scale) (fv.u * (g_scale * FPS_RESISTANCE α)) t))
        (wrap_axis H (p.y + lerp (p.y / g_scale) (fv.v * (g_scale * FPS_RESISTANCE α)) t))
        p.speed p.size) := by
    rw [update_particle_via_field, hfv]
    rfl
  refine ⟨hgen, ?_, ?_⟩
  · rintro rfl
    rw [hgen]
    simp [lerp]
  · rintro rfl
    rw [hgen]
    simp [lerp]

/-- Claim C1, witness: the amended theorem at a concrete input with
`t = 0`: with scale `2` and particle `(4, 6)`, both axes grow by the
field-space position `(2, 3)`. -/
theorem claim_C1_witness :
    update_particle_via_field qOps (Particle.mk 4 6 1 2)
        [FieldVector.mk 2 3 1 1] 2 100 100 true 0 =
      some (Particle.mk (wrap_axis (100 : ℚ) (4 + 4 / 2))
        (wrap_axis (100 : ℚ) (6 + 6 / 2)) 1 2) :=
  (claim_C1 qOps (Particle.mk 4 6 1 2) [FieldVector.mk 2 3 1 1] 2 100 100 0
    (FlowVector.mk 1 1) rfl).2.1 rfl

/-- Claim C3, counterexample: at `cols = rows = 0` (which satisfies
`cols == rows`) and `steps = 2` (a positive power of two), `gen_field`
does not return a field at all: the sample loop `range_tolist(0, 0, 0)`
never terminates, so no `points` list of length `steps²` is produced. -/
theorem claim_C3_counterexample :
    gen_field realOps E_FIELD_PATTERNS.SINUSOIDAL (0 : ℝ) 0 2 = none := by
  norm_num [gen_field, range_tolist]

/-- Claim C3, amended: for every `cols = rows` with `rows ≠ 0` and every
`steps = 2 ^ k`, `gen_field` returns a points list of length exactly
`steps²`, and that length is a power of two. -/
theorem claim_C3 {α : Type} [LinearOrderedField α] [FloorRing α] (ops : MathOps α)
    (pattern : E_FIELD_PATTERNS) (cols rows : α) (k nsteps : ℕ)
    (hsq : cols = rows) (hrows : rows ≠ 0) (hpow : nsteps = 2 ^ k) :
    ∃ pts, gen_field ops pattern cols rows nsteps = some pts ∧
      pts.length = nsteps ^ 2 ∧ ∃ m : ℕ, pts.length = 2 ^ m := by
  subst hsq
  have h1 : 1 ≤ nsteps := by
    rw [hpow]
    exact Nat.one_le_iff_ne_zero.mpr (pow_ne_zero k (by norm_num))
  rw [gen_field_eq_some ops pattern hrows h1]
  refine ⟨_, rfl, ?_, ⟨2 * k, ?_⟩⟩
  · rw [gen_field_core_length, pow_two]
  · rw [gen_field_core_length, hpow, ← pow_add, two_mul]

/-- Claim C3, witness: the amended theorem at `cols = rows = 4`,
`steps = 2 = 2¹` over `ℚ`. -/
theorem claim_C3_witness :
    ∃ pts, gen_field qOps E_FIELD_PATTERNS.SINUSOIDAL (4 : ℚ) 4 2 = some pts ∧
      pts.length = 2 ^ 2 ∧ ∃ m : ℕ, pts.length = 2 ^ m :=
  claim_C3 qOps E_FIELD_PATTERNS.SINUSOIDAL 4 4 1 2 rfl (by norm_num) rfl


/-- Claim C5, counterexample: at the valid input `cols = rows = 0`,
`steps = 4` (a power of two), `gen_field` returns no points at all (the
sample loop diverges), so the points are not the row-major flattening of
any cross product. -/
theorem claim_C5_counterexample :
    gen_field realOps E_FIELD_PATTERNS.INVERSE_SINUSOIDAL (0 : ℝ) 0 4 = none := by
  norm_num [gen_field, range_tolist]

/-- Claim C5, amended: for `cols = rows` with `rows ≠ 0` and
`steps = 2 ^ k`, the generated points are the row-major flattening of
the `steps × steps` cross product of the sample sequence: the point at
row-major position `i * steps + j` has `x = j·step` (column-varying) and
`y = i·step` (row-varying) with `step = rows / steps`, the output length
is `steps²`, and every coordinate pair of the cross product appears
exactly once (it occurs, and the coordinate list has no duplicates). -/
theorem claim_C5 {α : Type} [LinearOrderedField α] [FloorRing α] (ops : MathOps α)
    (pattern : E_FIELD_PATTERNS) (rows : α) (k nsteps : ℕ)
    (pts : List (FieldVector α))
    (hrows : rows ≠ 0) (hpow : nsteps = 2 ^ k)
    (hgen : gen_field ops pattern rows rows nsteps = some pts) :
    (∀ i j : ℕ, i < nsteps → j < nsteps →
      pts.get? (i * nsteps + j) =
        some (FieldVector.mk ((j : α) * (rows / (nsteps : α)))
          ((i : α) * (rows / (nsteps : α)))
          (uFun ops pattern ((j : α) * (rows / (nsteps : α)))
            ((i : α) * (rows / (nsteps : α))))
          (vFun ops pattern ((j : α) * (rows / (nsteps : α)))
            ((i : α) * (rows / (nsteps : α)))))) ∧
    pts.length = nsteps * nsteps ∧
    (pts.map (fun p => (p.x, p.y))).Nodup ∧
    (∀ i j : ℕ, i < nsteps → j < nsteps →
      ((j : α) * (rows / (nsteps : α)), (i : α) * (rows / (nsteps : α))) ∈
        pts.map (fun p => (p.x, p.y))) := by
  have h1 : 1 ≤ nsteps := by
    rw [hpow]
    exact Nat.one_le_iff_ne_zero.mpr (pow_ne_zero k (by norm_num))
  have hn : ((nsteps : α)) ≠ 0 := Nat.cast_ne_zero.mpr (by omega)
  have hs : rows / (nsteps : α) ≠ 0 := div_ne_zero hrows hn
  rw [gen_field_eq_some ops pattern hrows h1, Option.some_inj] at hgen
  subst hgen
  have hget : ∀ i j : ℕ, i < nsteps → j < nsteps →
      (gen_field_core ops pattern nsteps
        ((List.range (nsteps + 1)).map (fun k : ℕ => (k : α) * (rows / (nsteps : α))))
        ((List.range (nsteps + 1)).map (fun k : ℕ => (k : α) * (rows / (nsteps : α))))).get?
          (i * nsteps + j) =
        some (FieldVector.mk ((j : α) * (rows / (nsteps : α)))
          ((i : α) * (rows / (nsteps : α)))
          (uFun ops pattern ((j : α) * (rows / (nsteps : α)))
            ((i : α) * (rows / (nsteps : α))))
          (vFun ops pattern ((j : α) * (rows / (nsteps : α)))
            ((i : α) * (rows / (nsteps : α))))) := by
    intro i j hi hj
    rw [gen_field_core_get? ops pattern hi hj]
    rw [getD_map_range (by omega), getD_map_range (by omega)]
  refine ⟨hget, gen_field_core_length ops pattern nsteps _ _, ?_, ?_⟩
  · rw [gen_field_core_eq, List.map_flatMap]
    have hform : ∀ i ∈ List.range nsteps,
        ((List.range nsteps).map (fun j =>
          FieldVector.mk
            (((List.range (nsteps + 1)).map (fun k : ℕ => (k : α) * (rows / (nsteps : α)))).getD j 0)
            (((List.range (nsteps + 1)).map (fun k : ℕ => (k : α) * (rows / (nsteps : α)))).getD i 0)
            (uFun ops pattern
              (((List.range (nsteps + 1)).map (fun k : ℕ => (k : α) * (rows / (nsteps : α)))).getD j 0)
              (((List.range (nsteps + 1)).map (fun k : ℕ => (k : α) * (rows / (nsteps : α)))).getD i 0))
            (vFun ops pattern
              (((List.range (nsteps + 1)).map (fun k : ℕ => (k : α) * (rows / (nsteps : α)))).getD j 0)
              (((List.range (nsteps + 1)).map (fun k : ℕ => (k : α) * (rows / (nsteps : α)))).getD i 0)))).map
          (fun p => (p.x, p.y)) =
        (List.range nsteps).map
          (fun j : ℕ => ((j : α) * (rows / (nsteps : α)), (i : α) * (rows / (nsteps : α)))) := by
      intro i hi
      rw [List.mem_range] at hi
      rw [List.map_map]
      apply List.map_congr_left
      intro j hj
      rw [List.mem_range] at hj
      simp only [Function.comp_apply]
      rw [getD_map_range (by omega), getD_map_range (by omega)]
    rw [flatMap_congr_mem hform]
    rw [List.nodup_flatMap]
    constructor
    · intro i _
      apply List.Nodup.map_on ?_ (List.nodup_range nsteps)
      intro a _ b _ hab
      have hfst := congrArg Prod.fst hab
      simp only [] at hfst
      have := mul_right_cancel₀ hs hfst
      exact_mod_cast this
    · apply (List.pairwise_lt_range nsteps).imp
      intro a b hab
      intro q hqa hqb
      rw [List.mem_map] at hqa hqb
      obtain ⟨j1, _, hq1⟩ := hqa
      obtain ⟨j2, _, hq2⟩ := hqb
      have hsnd : ((a : α) * (rows / (nsteps : α))) = ((b : α) * (rows / (nsteps : α))) := by
        have := congrArg Prod.snd (hq1.trans hq2.symm)
        simpa using this
      have := mul_right_cancel₀ hs hsnd
      have hab' : a = b := by exact_mod_cast this
      omega
  · intro i j hi hj
    exact List.mem_map_of_mem _ (List.get?_mem (hget i j hi hj))

/-- Claim C5, witness: the amended theorem at `rows = 4`, `steps = 2`
over `ℚ`: the generator succeeds, yields `2 * 2` points, and the
coordinate pairs are pairwise distinct. -/
theorem claim_C5_witness :
    ∃ pts, gen_field qOps E_FIELD_PATTERNS.SINUSOIDAL (4 : ℚ) 4 2 = some pts ∧
      pts.length = 2 * 2 ∧ (pts.map (fun p => (p.x, p.y))).Nodup := by
  have h := claim_C5 qOps E_FIELD_PATTERNS.SINUSOIDAL 4 1 2 _ (by norm_num) rfl
    (gen_field_eq_some qOps E_FIELD_PATTERNS.SINUSOIDAL (by norm_num) (by norm_num))
  exact ⟨_, gen_field_eq_some qOps E_FIELD_PATTERNS.SINUSOIDAL (by norm_num) (by norm_num),
    h.2.1, h.2.2.1⟩

/-- Claim C10, counterexample: at `cols = rows = -8`, `steps = 2`
(parameters satisfying `cols == rows` and the power-of-two condition),
the field is generated, but its largest coordinate is `0`, not
`rows - rows/steps = -4`: the first generated point has `x = 0`, which
exceeds `-4`.  This refutes the claim that the largest coordinate is
always `rows - rows/steps`. -/
theorem claim_C10_counterexample :
    ∃ pts, gen_field qOps E_FIELD_PATTERNS.SINUSOIDAL (-8 : ℚ) (-8) 2 = some pts ∧
      ∃ p ∈ pts, ¬(p.x ≤ (-8 : ℚ) - (-8) / 2) := by
  refine ⟨_, gen_field_eq_some qOps E_FIELD_PATTERNS.SINUSOIDAL (by norm_num) (by norm_num), ?_⟩
  have h := gen_field_core_get? qOps E_FIELD_PATTERNS.SINUSOIDAL
    (show 0 < 2 by norm_num) (show 0 < 2 by norm_num)
    ((List.range (2 + 1)).map (fun k : ℕ => (k : ℚ) * ((-8 : ℚ) / ((2 : ℕ) : ℚ))))
    ((List.range (2 + 1)).map (fun k : ℕ => (k : ℚ) * ((-8 : ℚ) / ((2 : ℕ) : ℚ))))
  refine ⟨_, List.get?_mem h, ?_⟩
  show ¬((((List.range (2 + 1)).map
      (fun k : ℕ => (k : ℚ) * ((-8 : ℚ) / ((2 : ℕ) : ℚ)))).getD 0 0) ≤ (-8 : ℚ) - (-8) / 2)
  rw [getD_map_range (by norm_num)]
  norm_num

/-- Claim C10, amended: for `cols = rows` with `rows > 0` and
`steps = 2 ^ k`, every coordinate of a generated FieldPoint equals
`j·(rows/steps)` for some `0 ≤ j ≤ steps − 1`; the endpoint `rows`
itself never occurs, the largest coordinate is `rows − rows/steps`
(attained), and the inclusive sample list has `steps + 1` values, of
which only the first `steps` are used. -/
theorem claim_C10 {α : Type} [LinearOrderedField α] [FloorRing α] (ops : MathOps α)
    (pattern : E_FIELD_PATTERNS) (rows : α) (k nsteps : ℕ)
    (pts : List (FieldVector α))
    (hrows : 0 < rows) (hpow : nsteps = 2 ^ k)
    (hgen : gen_field ops pattern rows rows nsteps = some pts) :
    (∀ p ∈ pts,
      (∃ j : ℕ, j < nsteps ∧ p.x = (j : α) * (rows / (nsteps : α))) ∧
      (∃ i : ℕ, i < nsteps ∧ p.y = (i : α) * (rows / (nsteps : α)))) ∧
    (∀ p ∈ pts, p.x ≠ rows ∧ p.y ≠ rows) ∧
    (∀ p ∈ pts, p.x ≤ rows - rows / (nsteps : α) ∧ p.y ≤ rows - rows / (nsteps : α)) ∧
    (∃ p ∈ pts, p.x = rows - rows / (nsteps : α)) ∧
    (∃ xs, range_tolist 0 rows (rows / (nsteps : α)) = some xs ∧
      xs.length = nsteps + 1) := by
  have h1 : 1 ≤ nsteps := by
    rw [hpow]
    exact Nat.one_le_iff_ne_zero.mpr (pow_ne_zero k (by norm_num))
  have hn0 : (0 : α) < (nsteps : α) := by exact_mod_cast Nat.pos_of_ne_zero (by omega)
  have hn : ((nsteps : α)) ≠ 0 := ne_of_gt hn0
  have hspos : 0 < rows / (nsteps : α) := div_pos hrows hn0
  have hs : rows / (nsteps : α) ≠ 0 := ne_of_gt hspos
  have hns : (nsteps : α) * (rows / (nsteps : α)) = rows := by
    field_simp
  rw [gen_field_eq_some ops pattern (ne_of_gt hrows) h1, Option.some_inj] at hgen
  subst hgen
  have hcoord : ∀ p ∈ gen_field_core ops pattern nsteps
      ((List.range (nsteps + 1)).map (fun k : ℕ => (k : α) * (rows / (nsteps : α))))
      ((List.range (nsteps + 1)).map (fun k : ℕ => (k : α) * (rows / (nsteps : α)))),
      (∃ j : ℕ, j < nsteps ∧ p.x = (j : α) * (rows / (nsteps : α))) ∧
      (∃ i : ℕ, i < nsteps ∧ p.y = (i : α) * (rows / (nsteps : α))) := by
    intro p hp
    obtain ⟨i, hi, j, hj, rfl⟩ := (gen_field_core_mem ops pattern).mp hp
    rw [getD_map_range (by omega), getD_map_range (by omega)]
    exact ⟨⟨j, hj, rfl⟩, ⟨i, hi, rfl⟩⟩
  have hneq : ∀ j : ℕ, j < nsteps → (j : α) * (rows / (nsteps : α)) ≠ rows := by
    intro j hj hcontra
    nth_rewrite 2 [← hns] at hcontra
    have := mul_right_cancel₀ hs hcontra
    have : j = nsteps := by exact_mod_cast this
    omega
  have hle : ∀ j : ℕ, j < nsteps →
      (j : α) * (rows / (nsteps : α)) ≤ rows - rows / (nsteps : α) := by
    intro j hj
    have hj1 : (j : α) ≤ (nsteps : α) - 1 := by
      have : (j : α) + 1 ≤ (nsteps : α) := by exact_mod_cast hj
      linarith
    calc (j : α) * (rows / (nsteps : α))
        ≤ ((nsteps : α) - 1) * (rows / (nsteps : α)) :=
          mul_le_mul_of_nonneg_right hj1 (le_of_lt hspos)
      _ = (nsteps : α) * (rows / (nsteps : α)) - rows / (nsteps : α) := by ring
      _ = rows - rows / (nsteps : α) := by rw [hns]
  refine ⟨hcoord, ?_, ?_, ?_, ?_⟩
  · intro p hp
    obtain ⟨⟨j, hj, hx⟩, ⟨i, hi, hy⟩⟩ := hcoord p hp
    exact ⟨hx ▸ hneq j hj, hy ▸ hneq i hi⟩
  · intro p hp
    obtain ⟨⟨j, hj, hx⟩, ⟨i, hi, hy⟩⟩ := hcoord p hp
    exact ⟨hx ▸ hle j hj, hy ▸ hle i hi⟩
  · have h := gen_field_core_get? ops pattern
      (show 0 < nsteps by omega) (show nsteps - 1 < nsteps by omega)
      ((List.range (nsteps + 1)).map (fun k : ℕ => (k : α) * (rows / (nsteps : α))))
      ((List.range (nsteps + 1)).map (fun k : ℕ => (k : α) * (rows / (nsteps : α))))
    refine ⟨_, List.get?_mem h, ?_⟩
    show (((List.range (nsteps + 1)).map
        (fun k : ℕ => (k : α) * (rows / (nsteps : α)))).getD (nsteps - 1) 0) =
      rows - rows / (nsteps : α)
    rw [getD_map_range (by omega)]
    have hcast : ((nsteps - 1 : ℕ) : α) = (nsteps : α) - 1 := by
      rw [Nat.cast_sub h1, Nat.cast_one]
    rw [hcast]
    calc ((nsteps : α) - 1) * (rows / (nsteps : α))
        = (nsteps : α) * (rows / (nsteps : α)) - rows / (nsteps : α) := by ring
      _ = rows - rows / (nsteps : α) := by rw [hns]
  · refine ⟨_, range_tolist_rows (ne_of_gt hrows) h1, ?_⟩
    rw [List.length_map, List.length_range]

/-- Claim C10, witness: the amended theorem at `rows = 4`, `steps = 2`
over `ℚ`: the largest coordinate `4 - 4/2 = 2` is attained and the
inclusive sample list has `3` values. -/
theorem claim_C10_witness :
    ∃ pts, gen_field qOps E_FIELD_PATTERNS.SINUSOIDAL (4 : ℚ) 4 2 = some pts ∧
      (∃ p ∈ pts, p.x = 4 - 4 / ((2 : ℕ) : ℚ)) ∧
      (∃ xs, range_tolist 0 (4 : ℚ) (4 / ((2 : ℕ) : ℚ)) = some xs ∧
        xs.length = 2 + 1) := by
  have h := claim_C10 qOps E_FIELD_PATTERNS.SINUSOIDAL 4 1 2 _ (by norm_num) rfl
    (gen_field_eq_some qOps E_FIELD_PATTERNS.SINUSOIDAL (by norm_num) (by norm_num))
  exact ⟨_, gen_field_eq_some qOps E_FIELD_PATTERNS.SINUSOIDAL (by norm_num) (by norm_num),
    h.2.2.2.1, h.2.2.2.2⟩


/-- Claim C4, counterexample: the claim's scale constant `k` is stated
with the exact golden ratio, but the source constant is the decimal
literal `PHI = 1.61803398875`, which is strictly greater than the golden
ratio `(1 + √5)/2`; at grid coordinate `(x, y) = (0, 1)` the
ANTI_CLOCKWISE u-entry produced by the code therefore differs from
`sqrt(y · (1/φ)·(1/π))` with `φ` the golden ratio. -/
theorem claim_C4_counterexample :
    (map_flow_vectors realOps E_FIELD_PATTERNS.ANTI_CLOCKWISE [[(0 : ℝ)]] [[1]]).1 ≠
      [[Real.sqrt (1 * ((1 / goldenRatio) * (1 / Real.pi)))]] := by
  have hval : (map_flow_vectors realOps E_FIELD_PATTERNS.ANTI_CLOCKWISE [[(0 : ℝ)]] [[1]]).1 =
      [[Real.sqrt (1 * PHI_INV ℝ * PI_INV realOps)]] := rfl
  rw [hval]
  intro h
  have h1 : Real.sqrt (1 * PHI_INV ℝ * PI_INV realOps) =
      Real.sqrt (1 * ((1 / goldenRatio) * (1 / Real.pi))) := by
    simpa using h
  have hgold : goldenRatio < PHI ℝ := by
    have h5 : Real.sqrt 5 < 22360679775 / 10000000000 := by
      rw [Real.sqrt_lt' (by norm_num)]
      norm_num
    have hgr : goldenRatio = (1 + Real.sqrt 5) / 2 := rfl
    rw [hgr, PHI, div_lt_iff (by norm_num : (0 : ℝ) < 2)]
    linarith
  have hπ : (0 : ℝ) < 1 / Real.pi := by positivity
  have hinv : 1 / PHI ℝ < 1 / goldenRatio := one_div_lt_one_div_of_lt gold_pos hgold
  have harg : 1 * PHI_INV ℝ * PI_INV realOps < 1 * ((1 / goldenRatio) * (1 / Real.pi)) := by
    have h2 : (1 / PHI ℝ) * (1 / Real.pi) < (1 / goldenRatio) * (1 / Real.pi) :=
      mul_lt_mul_of_pos_right hinv hπ
    calc 1 * PHI_INV ℝ * PI_INV realOps
        = (1 / PHI ℝ) * (1 / Real.pi) := by
          rw [PHI_INV, PI_INV]
          show 1 * (1 / PHI ℝ) * (1 / realOps.pi) = _
          rw [show realOps.pi = Real.pi from rfl]
          ring
      _ < (1 / goldenRatio) * (1 / Real.pi) := h2
      _ = 1 * ((1 / goldenRatio) * (1 / Real.pi)) := by ring
  have hnn : (0 : ℝ) ≤ 1 * PHI_INV ℝ * PI_INV realOps := by
    rw [PHI_INV, PI_INV, PHI]
    show (0 : ℝ) ≤ 1 * (1 / (161803398875 / 100000000000)) * (1 / realOps.pi)
    rw [show realOps.pi = Real.pi from rfl]
    positivity
  exact absurd h1 (ne_of_lt (Real.sqrt_lt_sqrt hnn harg))

/-- Claim C4, amended: for every grid coordinate `(x, y)` (any entry of
the coordinate grids), the Pattern Library evaluates per the table:
SINUSOIDAL gives `(sin y, cos x)`; INVERSE_SINUSOIDAL gives
`(cos x, sin y)`; CLOCKWISE gives `(−sqrt(y·k), sqrt(x·k))`;
ANTI_CLOCKWISE gives `(sqrt(y·k), sqrt(x·k))`, where
`k = PHI_INV · PI_INV = (1/1.61803398875)·(1/π)` uses the source's
golden-ratio constant `PHI = 1.61803398875` in place of the exact golden
ratio. -/
theorem claim_C4 (xgrid ygrid : List (List ℝ)) (i j : ℕ) (x y : ℝ)
    (hx : (xgrid.get? i).bind (fun row => row.get? j) = some x)
    (hy : (ygrid.get? i).bind (fun row => row.get? j) = some y) :
    ((((map_flow_vectors realOps E_FIELD_PATTERNS.SINUSOIDAL xgrid ygrid).1.get? i).bind
        (fun row => row.get? j) = some (Real.sin y)) ∧
     (((map_flow_vectors realOps E_FIELD_PATTERNS.SINUSOIDAL xgrid ygrid).2.get? i).bind
        (fun row => row.get? j) = some (Real.cos x))) ∧
    ((((map_flow_vectors realOps E_FIELD_PATTERNS.INVERSE_SINUSOIDAL xgrid ygrid).1.get? i).bind
        (fun row => row.get? j) = some (Real.cos x)) ∧
     (((map_flow_vectors realOps E_FIELD_PATTERNS.INVERSE_SINUSOIDAL xgrid ygrid).2.get? i).bind
        (fun row => row.get? j) = some (Real.sin y))) ∧
    ((((map_flow_vectors realOps E_FIELD_PATTERNS.CLOCKWISE xgrid ygrid).1.get? i).bind
        (fun row => row.get? j) =
          some (-(Real.sqrt (y * (PHI_INV ℝ * PI_INV realOps))))) ∧
     (((map_flow_vectors realOps E_FIELD_PATTERNS.CLOCKWISE xgrid ygrid).2.get? i).bind
        (fun row => row.get? j) =
          some (Real.sqrt (x * (PHI_INV ℝ * PI_INV realOps))))) ∧
    ((((map_flow_vectors realOps E_FIELD_PATTERNS.ANTI_CLOCKWISE xgrid ygrid).1.get? i).bind
        (fun row => row.get? j) =
          some (Real.sqrt (y * (PHI_INV ℝ * PI_INV realOps)))) ∧
     (((map_flow_vectors realOps E_FIELD_PATTERNS.ANTI_CLOCKWISE xgrid ygrid).2.get? i).bind
        (fun row => row.get? j) =
          some (Real.sqrt (x * (PHI_INV ℝ * PI_INV realOps))))) := by
  cases hxr : xgrid.get? i with
  | none => rw [hxr] at hx; exact absurd hx (by simp)
  | some xrow =>
      cases hyr : ygrid.get? i with
      | none => rw [hyr] at hy; exact absurd hy (by simp)
      | some yrow =>
          rw [hxr, Option.some_bind] at hx
          rw [hyr, Option.some_bind] at hy
          refine ⟨⟨?_, ?_⟩, ⟨?_, ?_⟩, ⟨?_, ?_⟩, ⟨?_, ?_⟩⟩
          · show ((ygrid.map (fun row => row.map Real.sin)).get? i).bind
              (fun row => row.get? j) = some (Real.sin y)
            rw [List.get?_map, hyr, Option.map_some', Option.some_bind,
              List.get?_map, hy, Option.map_some']
          · show ((xgrid.map (fun row => row.map Real.cos)).get? i).bind
              (fun row => row.get? j) = some (Real.cos x)
            rw [List.get?_map, hxr, Option.map_some', Option.some_bind,
              List.get?_map, hx, Option.map_some']
          · show ((xgrid.map (fun row => row.map Real.cos)).get? i).bind
              (fun row => row.get? j) = some (Real.cos x)
            rw [List.get?_map, hxr, Option.map_some', Option.some_bind,
              List.get?_map, hx, Option.map_some']
          · show ((ygrid.map (fun row => row.map Real.sin)).get? i).bind
              (fun row => row.get? j) = some (Real.sin y)
            rw [List.get?_map, hyr, Option.map_some', Option.some_bind,
              List.get?_map, hy, Option.map_some']
          · show ((ygrid.map (fun row =>
                row.map (fun val => -(Real.sqrt (val * PHI_INV ℝ * PI_INV realOps))))).get? i).bind
              (fun row => row.get? j) = some (-(Real.sqrt (y * (PHI_INV ℝ * PI_INV realOps))))
            rw [List.get?_map, hyr, Option.map_some', Option.some_bind,
              List.get?_map, hy, Option.map_some', mul_assoc]
          · show ((xgrid.map (fun row =>
                row.map (fun val => Real.sqrt (val * PHI_INV ℝ * PI_INV realOps)))).get? i).bind
              (fun row => row.get? j) = some (Real.sqrt (x * (PHI_INV ℝ * PI_INV realOps)))
            rw [List.get?_map, hxr, Option.map_some', Option.some_bind,
              List.get?_map, hx, Option.map_some', mul_assoc]
          · show ((ygrid.map (fun row =>
                row.map (fun val => Real.sqrt (val * PHI_INV ℝ * PI_INV realOps)))).get? i).bind
              (fun row => row.get? j) = some (Real.sqrt (y * (PHI_INV ℝ * PI_INV realOps)))
            rw [List.get?_map, hyr, Option.map_some', Option.some_bind,
              List.get?_map, hy, Option.map_some', mul_assoc]
          · show ((xgrid.map (fun row =>
                row.map (fun val => Real.sqrt (val * PHI_INV ℝ * PI_INV realOps)))).get? i).bind
              (fun row => row.get? j) = some (Real.sqrt (x * (PHI_INV ℝ * PI_INV realOps)))
            rw [List.get?_map, hxr, Option.map_some', Option.some_bind,
              List.get?_map, hx, Option.map_some', mul_assoc]

/-- Claim C4, witness: the amended theorem at the singleton grids
`xgrid = [[2]]`, `ygrid = [[3]]`, entry `(0, 0)`: the SINUSOIDAL u-entry
is `sin 3`. -/
theorem claim_C4_witness :
    (((map_flow_vectors realOps E_FIELD_PATTERNS.SINUSOIDAL [[(2 : ℝ)]] [[3]]).1.get? 0).bind
      (fun row => row.get? 0)) = some (Real.sin 3) :=
  (claim_C4 [[(2 : ℝ)]] [[3]] 0 0 2 3 rfl rfl).1.1


/-- Claim C7: for every generated field and every FieldPoint `p` of its
points, querying the nearest-point lookup at `p`'s own coordinates
returns exactly `p`'s own flow vector, under either distance metric
(the minimal distance being `0` at `p` itself). -/
theorem claim_C7 (pattern : E_FIELD_PATTERNS) (cols rows : ℝ) (nsteps : ℕ)
    (pts : List (FieldVector ℝ)) (p : FieldVector ℝ) (b : Bool)
    (hgen : gen_field realOps pattern cols rows nsteps = some pts)
    (hp : p ∈ pts) :
    get_flow_vector_at_position realOps p.x p.y pts b = some (FlowVector.mk p.u p.v) := by
  have huv := gen_field_uv hgen
  apply lookup_at_zero realOps b p.x p.y pts p hp
  · cases b with
    | false =>
        show lookup_dist realOps false p.x p.y p = 0
        rw [lookup_dist]
        simp [realOps, Real.sqrt_zero]
    | true =>
        show lookup_dist realOps true p.x p.y p = 0
        rw [lookup_dist]
        simp [manhattan_distance]
  · intro q _hq
    cases b with
    | false =>
        rw [lookup_dist]
        simp only [Bool.false_eq_true, if_false]
        show (0 : ℝ) ≤ realOps.sqrt ((q.x - p.x) ^ 2 + (q.y - p.y) ^ 2)
        rw [show realOps.sqrt = Real.sqrt from rfl]
        exact Real.sqrt_nonneg _
    | true =>
        rw [lookup_dist]
        simp only [if_true]
        rw [manhattan_distance]
        positivity
  · intro q hq hq0
    have hcoords : q.x = p.x ∧ q.y = p.y := by
      cases b with
      | false =>
          rw [lookup_dist] at hq0
          simp only [Bool.false_eq_true, if_false] at hq0
          rw [show realOps.sqrt = Real.sqrt from rfl] at hq0
          have hnn : (0 : ℝ) ≤ (q.x - p.x) ^ 2 + (q.y - p.y) ^ 2 := by positivity
          have hsum : (q.x - p.x) ^ 2 + (q.y - p.y) ^ 2 = 0 :=
            (Real.sqrt_eq_zero hnn).mp hq0
          constructor <;> nlinarith [sq_nonneg (q.x - p.x), sq_nonneg (q.y - p.y)]
      | true =>
          rw [lookup_dist] at hq0
          simp only [if_true] at hq0
          rw [manhattan_distance] at hq0
          have ha : (0 : ℝ) ≤ |q.x - p.x| := abs_nonneg _
          have hb : (0 : ℝ) ≤ |q.y - p.y| := abs_nonneg _
          have h1 : |q.x - p.x| = 0 := by linarith
          have h2 : |q.y - p.y| = 0 := by linarith
          rw [abs_eq_zero, sub_eq_zero] at h1 h2
          exact ⟨h1, h2⟩
    obtain ⟨hqx, hqy⟩ := hcoords
    obtain ⟨hqu, hqv⟩ := huv q hq
    obtain ⟨hpu, hpv⟩ := huv p hp
    rw [hqu, hqv, hpu, hpv, hqx, hqy]
    exact ⟨rfl, rfl⟩

/-- Claim C7, witness: the theorem on the field generated at
`cols = rows = 1`, `steps = 1`, whose single point is
`(0, 0, sin 0, cos 0)`: looking up at `(0, 0)` returns
`(sin 0, cos 0)`. -/
theorem claim_C7_witness :
    get_flow_vector_at_position realOps (0 : ℝ) 0
      [FieldVector.mk 0 0 (Real.sin 0) (Real.cos 0)] false =
      some (FlowVector.mk (Real.sin 0) (Real.cos 0)) := by
  have hgen : gen_field realOps E_FIELD_PATTERNS.SINUSOIDAL (1 : ℝ) 1 1 =
      some [FieldVector.mk 0 0 (Real.sin 0) (Real.cos 0)] := by
    rw [gen_field_eq_some realOps E_FIELD_PATTERNS.SINUSOIDAL (by norm_num) (by norm_num)]
    congr 1
    rw [gen_field_core_eq]
    norm_num [List.range_succ, getD_map_range, uFun, vFun, realOps]
  have h := claim_C7 E_FIELD_PATTERNS.SINUSOIDAL 1 1 1 _
    (FieldVector.mk 0 0 (Real.sin 0) (Real.cos 0)) false hgen (by simp)
  simpa using h

end FlowFieldCanvas
